import Mathlib

/-!
Verification of the durable-write subsystem of the calcconform repository:
the UTF-8 chunk splitter (src/utils/chunk.ts), the chunked save/load and
cleanup protocol for the notes collection, the write queue, the domain CRUD
operations and the shutter search (src/contexts/StorageContext.tsx).

JavaScript strings are modelled as lists of UTF-16 code units (`JSStr`,
each element < 2^16); the key-value store (AsyncStorage) as an association
list with JavaScript map semantics; `JSON.parse` / `JSON.stringify` of the
domain payloads are abstracted as parameters where a claim depends only on
the protocol around them.
-/

/-- A JavaScript string: its sequence of UTF-16 code units. An astral
character appears as a surrogate pair (high then low surrogate). -/
abbrev JSStr := List Nat

/-- Byte length of `new TextEncoder().encode(s)` for the code-unit list `s`:
ASCII is 1 byte, code points below U+0800 are 2, other BMP code points 3; a
well-paired surrogate pair is one 4-byte character, and a lone surrogate is
replaced by U+FFFD (3 bytes), as the WHATWG encoder does. -/
def utf8Len : JSStr → Nat
  | [] => 0
  | c :: rest =>
    if c < 128 then 1 + utf8Len rest
    else if c < 2048 then 2 + utf8Len rest
    else if 55296 ≤ c ∧ c ≤ 56319 then
      match rest with
      | [] => 3
      | c2 :: rest2 =>
        if 56320 ≤ c2 ∧ c2 ≤ 57343 then 4 + utf8Len rest2
        else 3 + utf8Len (c2 :: rest2)
    else 3 + utf8Len rest

/-- The character loop of `splitByBytes` (src/utils/chunk.ts L16-28): `cur`
is `currentChunk`; on exit the final non-empty chunk is appended (L31-33). -/
def splitLoop (maxBytes : Nat) (cur : JSStr) : JSStr → List JSStr
  | [] => if cur.length > 0 then [cur] else []
  | ch :: rest =>
    let test := cur ++ [ch]
    if utf8Len test > maxBytes ∧ cur.length > 0 then
      cur :: splitLoop maxBytes [ch] rest
    else
      splitLoop maxBytes test rest

/-- `splitByBytes` (src/utils/chunk.ts L9-36): the falsy-string guard, then
the accumulation loop over the string's UTF-16 code units. -/
def splitByBytes (str : JSStr) (maxBytes : Nat) : List JSStr :=
  if str.isEmpty then [] else splitLoop maxBytes [] str

/-- `joinChunks` (src/utils/chunk.ts L41-43): `chunks.join('')`. -/
def joinChunks (chunks : List JSStr) : JSStr := chunks.join

/-- The character loop of `splitByBytesLegacy` (src/utils/chunk.ts L54-68):
the byte estimate is `testChunk.length * 3`. -/
def splitLegacyLoop (maxBytes : Nat) (cur : JSStr) : JSStr → List JSStr
  | [] => if cur.length > 0 then [cur] else []
  | ch :: rest =>
    let test := cur ++ [ch]
    if test.length * 3 > maxBytes ∧ cur.length > 0 then
      cur :: splitLegacyLoop maxBytes [ch] rest
    else
      splitLegacyLoop maxBytes test rest

/-- `splitByBytesLegacy` (src/utils/chunk.ts L48-75). -/
def splitByBytesLegacy (str : JSStr) (maxBytes : Nat) : List JSStr :=
  if str.isEmpty then [] else splitLegacyLoop maxBytes [] str

/-- A chunk boundary lying inside one astral character, the condition the
spec's "no chunk boundary falls inside a multi-byte character" forbids: some
chunk ends with a high surrogate and the next chunk begins with a low
surrogate, so a single 4-byte character is split across two chunks. -/
def splitsSurrogatePair : List JSStr → Bool
  | c1 :: c2 :: rest =>
    (match c1.getLast?, c2.head? with
     | some hs, some ls =>
       decide (55296 ≤ hs ∧ hs ≤ 56319 ∧ 56320 ≤ ls ∧ ls ≤ 57343)
     | _, _ => false) || splitsSurrogatePair (c2 :: rest)
  | _ => false

theorem splitLoop_join (maxBytes : Nat) :
    ∀ (s cur : JSStr), joinChunks (splitLoop maxBytes cur s) = cur ++ s := by
  intro s
  induction s with
  | nil =>
    intro cur
    by_cases h : cur.length > 0
    · simp [splitLoop, joinChunks, h]
    · have hc : cur = [] := by
        cases cur with
        | nil => rfl
        | cons a l => simp at h
      subst hc
      simp [splitLoop, joinChunks]
  | cons ch rest ih =>
    intro cur
    simp only [joinChunks] at ih
    by_cases h : utf8Len (cur ++ [ch]) > maxBytes ∧ cur.length > 0
    · simp [splitLoop, h, joinChunks, ih]
    · simp [splitLoop, h, joinChunks, ih]

theorem splitLegacyLoop_join (maxBytes : Nat) :
    ∀ (s cur : JSStr), joinChunks (splitLegacyLoop maxBytes cur s) = cur ++ s := by
  intro s
  induction s with
  | nil =>
    intro cur
    by_cases h : cur.length > 0
    · simp [splitLegacyLoop, joinChunks, h]
    · have hc : cur = [] := by
        cases cur with
        | nil => rfl
        | cons a l => simp at h
      subst hc
      simp [splitLegacyLoop, joinChunks]
  | cons ch rest ih =>
    intro cur
    simp only [joinChunks] at ih
    simp only [splitLegacyLoop]
    split <;> simp [joinChunks, ih]

theorem splitByBytes_join_eq (s : JSStr) (m : Nat) : joinChunks (splitByBytes s m) = s := by
  by_cases h : s.isEmpty
  · simp [splitByBytes, h, joinChunks]
    simpa [List.isEmpty_iff] using h
  · simpa [splitByBytes, h] using splitLoop_join m s []

theorem splitByBytesLegacy_join_eq (s : JSStr) (m : Nat) :
    joinChunks (splitByBytesLegacy s m) = s := by
  by_cases h : s.isEmpty
  · simp [splitByBytesLegacy, h, joinChunks]
    simpa [List.isEmpty_iff] using h
  · simpa [splitByBytesLegacy, h] using splitLegacyLoop_join m s []

theorem splitByBytes_ne_nil (s : JSStr) (m : Nat) (h : s ≠ []) : splitByBytes s m ≠ [] := by
  intro hc
  have := splitByBytes_join_eq s m
  rw [hc] at this
  exact h this.symm

/-- C5: for every string and byte limit m > 0, joining the chunks produced by
the splitter reproduces the string exactly, for both the TextEncoder-based
splitter and the legacy estimation-based splitter. -/
theorem join_split_roundtrip (s : JSStr) (m : Nat) (hm : 0 < m) :
    joinChunks (splitByBytes s m) = s ∧ joinChunks (splitByBytesLegacy s m) = s :=
  ⟨splitByBytes_join_eq s m, splitByBytesLegacy_join_eq s m⟩

theorem join_split_roundtrip_witness :
    joinChunks (splitByBytes [104, 105, 233] 2) = [104, 105, 233] ∧
    joinChunks (splitByBytesLegacy [104, 105, 233] 2) = [104, 105, 233] :=
  join_split_roundtrip [104, 105, 233] 2 (by decide)

theorem splitLoop_chunk_bound (maxBytes : Nat) :
    ∀ (s cur : JSStr), (utf8Len cur ≤ maxBytes ∨ cur.length = 1) →
      ∀ c ∈ splitLoop maxBytes cur s, utf8Len c ≤ maxBytes ∨ c.length = 1 := by
  intro s
  induction s with
  | nil =>
    intro cur hcur c hc
    by_cases h : cur.length > 0 <;> simp [splitLoop, h] at hc
    subst hc; exact hcur
  | cons ch rest ih =>
    intro cur hcur c hc
    by_cases h : utf8Len (cur ++ [ch]) > maxBytes ∧ cur.length > 0
    · simp only [splitLoop, if_pos h, List.mem_cons] at hc
      rcases hc with rfl | hc
      · exact hcur
      · exact ih [ch] (Or.inr rfl) c hc
    · simp only [splitLoop, if_neg h] at hc
      rcases not_and_or.mp h with h1 | h2
      · exact ih (cur ++ [ch]) (Or.inl (by omega)) c hc
      · have : cur = [] := by
          cases cur with
          | nil => rfl
          | cons a l => simp at h2
        subst this
        exact ih [ch] (Or.inr rfl) c hc

/-- C6 (amended): every chunk produced by splitByBytes has TextEncoder byte
length at most m or consists of a single UTF-16 code unit (the splitter walks
code units, so an oversized single unit stands alone); boundaries are placed
between code units, not between whole characters, so this is the granularity
at which the spec's exception clause actually holds. -/
theorem split_chunk_byteLen_le_or_single_unit (s : JSStr) (m : Nat) (hm : 0 < m) :
    ∀ c ∈ splitByBytes s m, utf8Len c ≤ m ∨ c.length = 1 := by
  intro c hc
  by_cases h : s.isEmpty
  · simp [splitByBytes, h] at hc
  · simp only [splitByBytes, if_neg h] at hc
    exact splitLoop_chunk_bound m s [] (Or.inl (by simp [utf8Len])) c hc

theorem split_chunk_byteLen_witness :
    utf8Len [104, 105] ≤ 4 ∨ ([104, 105] : JSStr).length = 1 :=
  split_chunk_byteLen_le_or_single_unit [104, 105] 4 (by decide) [104, 105] (by decide)

/-- C6 (counterexample): splitting the single astral character U+1F600 (code
units 55357, 56832; four UTF-8 bytes) with limit m = 3 puts a chunk boundary
between its two surrogates, inside the multi-byte character, and the
over-limit character does not stand alone as one chunk. -/
theorem split_boundary_inside_astral_char :
    splitByBytes [55357, 56832] 3 = [[55357], [56832]] ∧
    splitsSurrogatePair (splitByBytes [55357, 56832] 3) = true := by
  constructor <;> decide

/-- The UTF-16 code units of an ASCII string literal, as a `JSStr`. -/
def su (s : String) : List Nat := s.data.map Char.toNat

/-- Fuel-driven decimal digit accumulator (ASCII codes), used to render a
chunk index into its key. -/
def decDigitsAux (fuel : Nat) (n : Nat) (acc : List Nat) : List Nat :=
  match fuel with
  | 0 => acc
  | fuel + 1 =>
    if n < 10 then (48 + n) :: acc
    else decDigitsAux fuel (n / 10) ((48 + n % 10) :: acc)

/-- The decimal rendering of a natural number as ASCII code units, as JS
template interpolation produces for a chunk index. -/
def decRepr (n : Nat) : List Nat := decDigitsAux (n + 1) n []

/-- The AsyncStorage key-value map, modelled as an association list of
UTF-16 strings; `kvSet` keeps one binding per key. -/
abbrev Store := List (List Nat × List Nat)

/-- `AsyncStorage.getItem`. -/
def kvGet (st : Store) (k : List Nat) : Option (List Nat) :=
  (st.find? fun p => p.1 == k).map Prod.snd

/-- `AsyncStorage.setItem`: the key is bound to the new value; any earlier
binding of it is replaced. -/
def kvSet (st : Store) (k v : List Nat) : Store :=
  (k, v) :: st.filter fun p => p.1 != k

/-- `AsyncStorage.removeItem`. -/
def kvRemove (st : Store) (k : List Nat) : Store :=
  st.filter fun p => p.1 != k

/-- `AsyncStorage.getAllKeys`. -/
def kvKeys (st : Store) : List (List Nat) := st.map Prod.fst

/-- `AsyncStorage.multiRemove`. -/
def kvMultiRemove (st : Store) (ks : List (List Nat)) : Store :=
  st.filter fun p => !(ks.contains p.1)

/-- STORAGE_KEYS.NOTES (StorageContext.tsx L110). -/
def notesKey : List Nat := su "SIEMENS_NOTES"

/-- STORAGE_KEYS.NOTES_TMP, the write-ahead staging key (L111). -/
def notesTmpKey : List Nat := su "SIEMENS_NOTES_TMP"

/-- STORAGE_KEYS.NOTES_META, the metadata key the chunked save writes (L112). -/
def notesMetaKey : List Nat := su "SIEMENS_NOTES_META"

/-- The metadata key the chunked-load fallback of initializeStorage reads
(L325): `SIEMENS_NOTES` + "_chunks_meta" — a different key from
STORAGE_KEYS.NOTES_META. -/
def legacyChunksMetaKey : List Nat := su "SIEMENS_NOTES_chunks_meta"

/-- The shared leading part of every chunk key (L443, L457, L528). -/
def chunkKeyStem : List Nat := su "SIEMENS_NOTES_chunk_"

/-- The key of chunk i: `SIEMENS_NOTES_chunk_${i}`. -/
def chunkKey (i : Nat) : List Nat := chunkKeyStem ++ decRepr i

/-- The 500 KiB per-chunk target of saveNotesWithUTF8Chunks (L427). -/
def maxChunkSize : Nat := 500 * 1024

/-- The chunk-writing loop of saveNotesWithUTF8Chunks (L442-445): chunk j of
the list is written under `chunkKey (i + j)`. -/
def writeChunks (st : Store) (cs : List (List Nat)) (i : Nat) : Store :=
  match cs with
  | [] => st
  | c :: rest => writeChunks (kvSet st (chunkKey i) c) rest (i + 1)

/-- saveNotesWithUTF8Chunks (StorageContext.tsx L426-451): split the
serialized document, write the metadata record (its JSON rendering is the
abstract `metaStr`), write every chunk under its indexed key, then remove the
primary key so its absence signals chunked data. -/
def saveNotesWithUTF8Chunks (st : Store) (dataString metaStr : List Nat) : Store :=
  let chunks := splitByBytes dataString maxChunkSize
  kvRemove (writeChunks (kvSet st notesMetaKey metaStr) chunks 0) notesKey

/-- cleanupOldChunks (StorageContext.tsx L454-467): list all keys, keep those
that start with the chunk-key stem, and when any exist remove them all
together with the metadata key. -/
def cleanupOldChunks (st : Store) : Store :=
  if ((kvKeys st).filter fun k => chunkKeyStem.isPrefixOf k).length > 0 then
    kvRemove (kvMultiRemove st ((kvKeys st).filter fun k => chunkKeyStem.isPrefixOf k))
      notesMetaKey
  else st

/-- The storage steps of saveNotes (StorageContext.tsx L470-513) on the
serialized notes document `dataString`: write-ahead staging under the TMP
key, the 500 KiB size branch (direct write of the primary key versus the
chunked path), commit by deleting the TMP key, then cleanupOldChunks. Image
sanitization (identity on web) and the React state update carry no
key-value effect and are elided. -/
def saveNotesStorage (st : Store) (dataString metaStr : List Nat) : Store :=
  let st1 := kvSet st notesTmpKey dataString
  let st2 :=
    if dataString.length > 500 * 1024 then saveNotesWithUTF8Chunks st1 dataString metaStr
    else kvSet st1 notesKey dataString
  cleanupOldChunks (kvRemove st2 notesTmpKey)

/-- The literal string "undefined", which the loader treats as absent (L315). -/
def undefinedStr : List Nat := su "undefined"

/-- The literal string "null", which the loader treats as absent (L315). -/
def nullStr : List Nat := su "null"

/-- The chunk-reading loop of initializeStorage's fallback (L330-337), read
ascending from index `i` for `remaining` more chunks: a missing chunk is
silently skipped (`if (chunkData)`), while a chunk whose payload does not
JSON-parse as an array throws and aborts the whole fallback (the catch at
L342), modelled as `none`. `pArr` is JSON.parse-as-an-array-of-notes, with
the parsed note payload type `α` abstract. -/
def collectChunksInit (pArr : List Nat → Option (List α)) (st : Store)
    (i remaining : Nat) : Option (List α) :=
  match remaining with
  | 0 => some []
  | r + 1 =>
    match kvGet st (chunkKey i) with
    | none => collectChunksInit pArr st (i + 1) r
    | some cd =>
      match pArr cd with
      | none => none
      | some arr => (collectChunksInit pArr st (i + 1) r).map (arr ++ ·)

/-- The notes branch of initializeStorage (StorageContext.tsx L304-365): read
the primary key; when its value is absent, empty, "undefined" or "null" the
result is the empty list and nothing else is consulted; when it parses, use
it; when it is present but unparseable, fall back: read `legacyChunksMetaKey`
(absent or unparseable metadata gives the empty list), then run the
skip-missing chunk loop, an aborted loop giving the empty list. `pMeta`
models JSON.parse of the metadata plus the `.totalChunks` access; the
per-item date coercion of the parsed payloads is folded into `α`. -/
def initNotesLoad (pArr : List Nat → Option (List α)) (pMeta : List Nat → Option Nat)
    (st : Store) : List α :=
  match kvGet st notesKey with
  | none => []
  | some s =>
    if s.isEmpty || s == undefinedStr || s == nullStr then []
    else
      match pArr s with
      | some arr => arr
      | none =>
        match kvGet st legacyChunksMetaKey with
        | none => []
        | some ms =>
          if ms.isEmpty then []
          else
            match pMeta ms with
            | none => []
            | some total =>
              match collectChunksInit pArr st 0 total with
              | none => []
              | some arr => arr

/-- The strict chunk-reading loop of loadNotesFromChunks (L527-537): any
missing chunk aborts with `none`. -/
def loadChunksStrict (st : Store) (i remaining : Nat) : Option (List (List Nat)) :=
  match remaining with
  | 0 => some []
  | r + 1 =>
    match kvGet st (chunkKey i) with
    | none => none
    | some cd => (loadChunksStrict st (i + 1) r).map (cd :: ·)

/-- loadNotesFromChunks (StorageContext.tsx L516-547): read NOTES_META, read
every chunk in index order aborting on a missing one, and join. This helper
is declared but never invoked by initializeStorage. -/
def loadNotesFromChunks (pMeta : List Nat → Option Nat) (st : Store) : Option (List Nat) :=
  match kvGet st notesMetaKey with
  | none => none
  | some ms =>
    match pMeta ms with
    | none => none
    | some total => (loadChunksStrict st 0 total).map joinChunks

/-- The store state right after the commit step of a chunked saveNotes run
(L483-496): staging write, chunked write, staging key removed — before
cleanupOldChunks runs. -/
def saveNotesBeforeCleanup (st : Store) (dataString metaStr : List Nat) : Store :=
  kvRemove (saveNotesWithUTF8Chunks (kvSet st notesTmpKey dataString) dataString metaStr)
    notesTmpKey

theorem kvGet_eq_none_iff (st : Store) (k : List Nat) :
    kvGet st k = none ↔ ∀ p ∈ st, p.1 ≠ k := by
  simp [kvGet, List.find?_eq_none]

theorem kvGet_filter_of_none (st : Store) (k : List Nat) (c : List Nat × List Nat → Bool)
    (h : kvGet st k = none) : kvGet (st.filter c) k = none := by
  rw [kvGet_eq_none_iff] at h ⊢
  intro p hp
  exact h p (List.mem_of_mem_filter hp)

theorem kvGet_filter_none (st : Store) (k : List Nat) (c : List Nat × List Nat → Bool)
    (h : ∀ p ∈ st, p.1 = k → c p = false) : kvGet (st.filter c) k = none := by
  rw [kvGet_eq_none_iff]
  intro p hp hpk
  have h1 := List.mem_filter.mp hp
  have h2 := h p h1.1 hpk
  rw [h2] at h1
  exact absurd h1.2 (by simp)

theorem kvGet_cons (a : List Nat × List Nat) (l : Store) (k : List Nat) :
    kvGet (a :: l) k = if a.1 = k then some a.2 else kvGet l k := by
  by_cases hk : a.1 = k
  · simp [kvGet, List.find?, hk]
  · have hb : (a.1 == k) = false := by simpa using hk
    simp [kvGet, List.find?, hb, hk]

theorem kvGet_filter_keeps (st : Store) (k : List Nat) (c : List Nat × List Nat → Bool)
    (h : ∀ p, p.1 = k → c p = true) : kvGet (st.filter c) k = kvGet st k := by
  induction st with
  | nil => rfl
  | cons a l ih =>
    by_cases hc : c a = true
    · rw [List.filter_cons_of_pos hc, kvGet_cons, kvGet_cons]
      by_cases hk : a.1 = k
      · simp [hk]
      · simp [hk, ih]
    · rw [List.filter_cons_of_neg (by simpa using hc), kvGet_cons]
      have hk : ¬ a.1 = k := fun hk => hc (h a hk)
      simp [hk, ih]

theorem kvGet_remove_ne (st : Store) (k k' : List Nat) (h : k' ≠ k) :
    kvGet (kvRemove st k) k' = kvGet st k' := by
  apply kvGet_filter_keeps
  intro p hp
  simp [hp, bne_iff_ne, h]

theorem kvGet_remove_self (st : Store) (k : List Nat) : kvGet (kvRemove st k) k = none := by
  apply kvGet_filter_none
  intro p hp hpk
  simp [hpk, bne]

theorem kvGet_set_self (st : Store) (k v : List Nat) : kvGet (kvSet st k v) k = some v := by
  simp [kvGet, kvSet, List.find?_cons_of_pos]

theorem kvGet_set_ne (st : Store) (k v k' : List Nat) (h : k' ≠ k) :
    kvGet (kvSet st k v) k' = kvGet st k' := by
  show kvGet ((k, v) :: kvRemove st k) k' = kvGet st k'
  rw [kvGet_cons]
  rw [if_neg (fun hh => h (hh.symm : k' = k))]
  exact kvGet_remove_ne st k k' h

theorem kvGet_set_ne_none (st : Store) (k v k' : List Nat) (h : kvGet st k' ≠ none) :
    kvGet (kvSet st k v) k' ≠ none := by
  by_cases hk : k' = k
  · subst hk
    simp [kvGet_set_self]
  · rw [kvGet_set_ne _ _ _ _ hk]
    exact h

theorem kvGet_multiRemove_of_mem (st : Store) (ks : List (List Nat)) (k : List Nat)
    (h : ks.contains k = true) : kvGet (kvMultiRemove st ks) k = none := by
  apply kvGet_filter_none
  intro p hp hpk
  show (!(ks.contains p.1)) = false
  rw [hpk, h]
  rfl

theorem mem_kvKeys_of_get_ne_none (st : Store) (k : List Nat) (h : kvGet st k ≠ none) :
    k ∈ kvKeys st := by
  unfold kvGet at h
  cases hf : st.find? (fun p => p.1 == k) with
  | none => rw [hf] at h; simp at h
  | some p =>
    have hp := List.find?_some hf
    have hmem := List.mem_of_find?_eq_some hf
    have hk : p.1 = k := by simpa using hp
    exact hk ▸ List.mem_map.mpr ⟨p, hmem, rfl⟩

theorem kvGet_writeChunks_ne (cs : List (List Nat)) (st : Store) (i : Nat) (k : List Nat)
    (h : ∀ j, k ≠ chunkKey j) : kvGet (writeChunks st cs i) k = kvGet st k := by
  induction cs generalizing st i with
  | nil => rfl
  | cons c rest ih =>
    show kvGet (writeChunks (kvSet st (chunkKey i) c) rest (i + 1)) k = kvGet st k
    rw [ih, kvGet_set_ne _ _ _ _ (h i)]

theorem writeChunks_pres_ne_none (cs : List (List Nat)) (st : Store) (i : Nat) (k : List Nat)
    (h : kvGet st k ≠ none) : kvGet (writeChunks st cs i) k ≠ none := by
  induction cs generalizing st i with
  | nil => exact h
  | cons c rest ih =>
    exact ih (kvSet st (chunkKey i) c) (i + 1) (kvGet_set_ne_none _ _ _ _ h)

theorem writeChunks_chunk_present (cs : List (List Nat)) (st : Store) (i j : Nat)
    (hj : j < cs.length) : kvGet (writeChunks st cs i) (chunkKey (i + j)) ≠ none := by
  induction cs generalizing st i j with
  | nil => simp at hj
  | cons c rest ih =>
    cases j with
    | zero =>
      show kvGet (writeChunks (kvSet st (chunkKey i) c) rest (i + 1)) (chunkKey (i + 0)) ≠ none
      rw [Nat.add_zero]
      exact writeChunks_pres_ne_none rest _ (i + 1) _ (by simp [kvGet_set_self])
    | succ j' =>
      have hij : i + (j' + 1) = (i + 1) + j' := by omega
      rw [hij]
      show kvGet (writeChunks (kvSet st (chunkKey i) c) rest (i + 1)) (chunkKey (i + 1 + j')) ≠ none
      exact ih _ (i + 1) j' (by simpa using hj)

theorem decDigitsAux_length (fuel : Nat) : ∀ (n : Nat) (acc : List Nat),
    acc.length ≤ (decDigitsAux fuel n acc).length := by
  induction fuel with
  | zero => intro n acc; simp [decDigitsAux]
  | succ f ih =>
    intro n acc
    simp only [decDigitsAux]
    split
    · simp
    · exact le_trans (by simp) (ih (n / 10) _)

theorem decRepr_length_pos (n : Nat) : 1 ≤ (decRepr n).length := by
  simp only [decRepr, decDigitsAux]
  split
  · simp
  · exact le_trans (by simp) (decDigitsAux_length n (n / 10) _)

theorem chunkKey_length (i : Nat) : 21 ≤ (chunkKey i).length := by
  have h1 : chunkKeyStem.length = 20 := by decide
  have h2 := decRepr_length_pos i
  simp only [chunkKey, List.length_append, h1]
  omega

theorem chunkKey_ne_notesKey (i : Nat) : chunkKey i ≠ notesKey := by
  intro h
  have hl := congrArg List.length h
  have h2 : notesKey.length = 13 := by decide
  have h3 := chunkKey_length i
  omega

theorem chunkKey_ne_notesTmpKey (i : Nat) : chunkKey i ≠ notesTmpKey := by
  intro h
  have hl := congrArg List.length h
  have h2 : notesTmpKey.length = 17 := by decide
  have h3 := chunkKey_length i
  omega

theorem chunkKey_ne_notesMetaKey (i : Nat) : chunkKey i ≠ notesMetaKey := by
  intro h
  have hl := congrArg List.length h
  have h2 : notesMetaKey.length = 18 := by decide
  have h3 := chunkKey_length i
  omega

theorem isPrefixOf_append_self (p t : List Nat) : p.isPrefixOf (p ++ t) = true := by
  induction p with
  | nil => cases t <;> rfl
  | cons a l ih => simp [List.isPrefixOf, ih]

theorem stem_isPrefixOf_chunkKey (i : Nat) : chunkKeyStem.isPrefixOf (chunkKey i) = true :=
  isPrefixOf_append_self _ _

theorem cleanup_branch (P : Store) (hP : ∃ k ∈ kvKeys P, chunkKeyStem.isPrefixOf k = true) :
    cleanupOldChunks P =
      kvRemove (kvMultiRemove P ((kvKeys P).filter fun k => chunkKeyStem.isPrefixOf k))
        notesMetaKey := by
  obtain ⟨k, hk, hpre⟩ := hP
  have hmem : k ∈ (kvKeys P).filter (fun k => chunkKeyStem.isPrefixOf k) :=
    List.mem_filter.mpr ⟨hk, hpre⟩
  have hlen : ((kvKeys P).filter fun k => chunkKeyStem.isPrefixOf k).length > 0 :=
    List.length_pos.mpr (List.ne_nil_of_mem hmem)
  simp [cleanupOldChunks, hlen]

theorem cleanup_get_chunk_none (P : Store)
    (hP : ∃ k ∈ kvKeys P, chunkKeyStem.isPrefixOf k = true) (i : Nat) :
    kvGet (cleanupOldChunks P) (chunkKey i) = none := by
  rw [cleanup_branch P hP]
  apply kvGet_filter_of_none
  apply kvGet_filter_none
  intro p hp hpk
  have hmem : p.1 ∈ (kvKeys P).filter (fun k => chunkKeyStem.isPrefixOf k) :=
    List.mem_filter.mpr
      ⟨List.mem_map.mpr ⟨p, hp, rfl⟩, by rw [hpk]; exact stem_isPrefixOf_chunkKey i⟩
  show (!(((kvKeys P).filter fun k => chunkKeyStem.isPrefixOf k).contains p.1)) = false
  have : ((kvKeys P).filter fun k => chunkKeyStem.isPrefixOf k).contains p.1 = true := by
    exact List.elem_eq_true_of_mem hmem
  rw [this]
  rfl

theorem cleanup_get_meta_none (P : Store)
    (hP : ∃ k ∈ kvKeys P, chunkKeyStem.isPrefixOf k = true) :
    kvGet (cleanupOldChunks P) notesMetaKey = none := by
  rw [cleanup_branch P hP]
  exact kvGet_remove_self _ _

theorem cleanup_pres_none (P : Store) (k : List Nat) (h : kvGet P k = none) :
    kvGet (cleanupOldChunks P) k = none := by
  unfold cleanupOldChunks
  split
  · exact kvGet_filter_of_none _ _ _ (kvGet_filter_of_none _ _ _ h)
  · exact h

theorem beforeCleanup_chunk_present (st : Store) (d metaStr : List Nat) (j : Nat)
    (hj : j < (splitByBytes d maxChunkSize).length) :
    kvGet (saveNotesBeforeCleanup st d metaStr) (chunkKey j) ≠ none := by
  unfold saveNotesBeforeCleanup saveNotesWithUTF8Chunks
  rw [kvGet_remove_ne _ _ _ (chunkKey_ne_notesTmpKey j),
    kvGet_remove_ne _ _ _ (chunkKey_ne_notesKey j)]
  have := writeChunks_chunk_present (splitByBytes d maxChunkSize)
    (kvSet (kvSet st notesTmpKey d) notesMetaKey metaStr) 0 j hj
  simpa using this

theorem beforeCleanup_meta_present (st : Store) (d metaStr : List Nat) :
    kvGet (saveNotesBeforeCleanup st d metaStr) notesMetaKey ≠ none := by
  unfold saveNotesBeforeCleanup saveNotesWithUTF8Chunks
  have h1 : notesMetaKey ≠ notesTmpKey := by decide
  have h2 : notesMetaKey ≠ notesKey := by decide
  rw [kvGet_remove_ne _ _ _ h1, kvGet_remove_ne _ _ _ h2]
  apply writeChunks_pres_ne_none
  simp [kvGet_set_self]

theorem beforeCleanup_notes_none (st : Store) (d metaStr : List Nat) :
    kvGet (saveNotesBeforeCleanup st d metaStr) notesKey = none := by
  unfold saveNotesBeforeCleanup saveNotesWithUTF8Chunks
  have h1 : notesKey ≠ notesTmpKey := by decide
  rw [kvGet_remove_ne _ _ _ h1]
  exact kvGet_remove_self _ _

theorem saveNotes_large_eq (st : Store) (d metaStr : List Nat)
    (hd : d.length > 500 * 1024) :
    saveNotesStorage st d metaStr = cleanupOldChunks (saveNotesBeforeCleanup st d metaStr) := by
  simp [saveNotesStorage, saveNotesBeforeCleanup, hd]

theorem beforeCleanup_has_stem_key (st : Store) (d metaStr : List Nat)
    (hd : d.length > 500 * 1024) :
    ∃ k ∈ kvKeys (saveNotesBeforeCleanup st d metaStr), chunkKeyStem.isPrefixOf k = true := by
  have hne : d ≠ [] := by
    intro h
    rw [h] at hd
    simp at hd
  have hpos : 0 < (splitByBytes d maxChunkSize).length :=
    List.length_pos.mpr (splitByBytes_ne_nil d maxChunkSize hne)
  refine ⟨chunkKey 0, ?_, stem_isPrefixOf_chunkKey 0⟩
  exact mem_kvKeys_of_get_ne_none _ _ (beforeCleanup_chunk_present st d metaStr 0 hpos)

/-- A serialized notes document over the 500 KiB branch threshold: 512001
ASCII characters. -/
def bigDoc : List Nat := List.replicate 512001 97

/-- C1 (code bug): after a chunked saveNotes run the store holds no notes
data at all — the chunked write removed the primary key, and the
unconditional cleanupOldChunks that follows removed the just-written chunk
keys and metadata key — so the load protocol yields the empty collection for
every parse function, not a collection deep-equal to the saved one. -/
theorem chunkedSave_then_load_losesData (st : Store) (d metaStr : List Nat)
    (hd : d.length > 500 * 1024) :
    kvGet (saveNotesStorage st d metaStr) notesKey = none ∧
    kvGet (saveNotesStorage st d metaStr) notesMetaKey = none ∧
    (∀ i, kvGet (saveNotesStorage st d metaStr) (chunkKey i) = none) ∧
    (∀ (α : Type) (pArr : List Nat → Option (List α)) (pMeta : List Nat → Option Nat),
      initNotesLoad pArr pMeta (saveNotesStorage st d metaStr) = []) := by
  have hstem := beforeCleanup_has_stem_key st d metaStr hd
  rw [saveNotes_large_eq st d metaStr hd]
  have hnotes : kvGet (cleanupOldChunks (saveNotesBeforeCleanup st d metaStr)) notesKey = none :=
    cleanup_pres_none _ _ (beforeCleanup_notes_none st d metaStr)
  refine ⟨hnotes, cleanup_get_meta_none _ hstem, fun i => cleanup_get_chunk_none _ hstem i, ?_⟩
  intro α pArr pMeta
  simp [initNotesLoad, hnotes]

theorem chunkedSave_then_load_losesData_witness :
    kvGet (saveNotesStorage [] bigDoc (su "META")) notesKey = none ∧
    kvGet (saveNotesStorage [] bigDoc (su "META")) notesMetaKey = none ∧
    (∀ i, kvGet (saveNotesStorage [] bigDoc (su "META")) (chunkKey i) = none) ∧
    (∀ (α : Type) (pArr : List Nat → Option (List α)) (pMeta : List Nat → Option Nat),
      initNotesLoad pArr pMeta (saveNotesStorage [] bigDoc (su "META")) = []) :=
  chunkedSave_then_load_losesData [] bigDoc (su "META")
    (by simp only [bigDoc, List.length_replicate]; decide)

/-- C2 (code bug): right before the cleanup step of a chunked save every
just-written chunk key and the metadata key are present, and after the save
returns (cleanupOldChunks having run) they are all gone: the cleanup deletes
the keys written by the save that just completed, not only leftovers of a
previous save. -/
theorem cleanup_deletes_justWritten_chunks (st : Store) (d metaStr : List Nat)
    (hd : d.length > 500 * 1024) :
    (∀ j < (splitByBytes d maxChunkSize).length,
        kvGet (saveNotesBeforeCleanup st d metaStr) (chunkKey j) ≠ none) ∧
    kvGet (saveNotesBeforeCleanup st d metaStr) notesMetaKey ≠ none ∧
    (∀ i, kvGet (saveNotesStorage st d metaStr) (chunkKey i) = none) ∧
    kvGet (saveNotesStorage st d metaStr) notesMetaKey = none := by
  have hstem := beforeCleanup_has_stem_key st d metaStr hd
  refine ⟨fun j hj => beforeCleanup_chunk_present st d metaStr j hj,
    beforeCleanup_meta_present st d metaStr, ?_, ?_⟩
  · intro i
    rw [saveNotes_large_eq st d metaStr hd]
    exact cleanup_get_chunk_none _ hstem i
  · rw [saveNotes_large_eq st d metaStr hd]
    exact cleanup_get_meta_none _ hstem

theorem cleanup_deletes_justWritten_chunks_witness :
    kvGet (saveNotesStorage [] bigDoc (su "META")) notesMetaKey = none :=
  (cleanup_deletes_justWritten_chunks [] bigDoc (su "META")
    (by simp only [bigDoc, List.length_replicate]; decide)).2.2.2

/-- A stand-in for an unparseable primary-key value. -/
def garbageStr : List Nat := su "garbage"

/-- A stand-in for the rendered chunk metadata JSON announcing 2 chunks. -/
def metaStr2 : List Nat := su "META2"

/-- A stand-in for a chunk payload that parses as a one-note JSON array. -/
def chunkPayload : List Nat := su "[NOTE1]"

/-- A store in which the primary notes key holds an unparseable value, both
metadata keys announce 2 chunks, chunk 0 is present and chunk 1 is missing. -/
def c3Store : Store :=
  [(notesKey, garbageStr), (notesMetaKey, metaStr2), (legacyChunksMetaKey, metaStr2),
   (chunkKey 0, chunkPayload)]

/-- A concrete JSON.parse-as-array model for the C3 store: the chunk payload
parses to the single note payload 1, everything else fails to parse. -/
def testPArr : List Nat → Option (List Nat) := fun s =>
  if s == chunkPayload then some [1] else none

/-- A concrete metadata-parse model for the C3 store: the metadata string
gives totalChunks 2. -/
def testPMeta : List Nat → Option Nat := fun s =>
  if s == metaStr2 then some 2 else none

/-- C3 (code bug): when the primary notes key is absent the load protocol
returns the empty list for every store and every parse function, without
consulting any metadata or chunk key; and when the primary key is present
but unparseable, a missing chunk does not abort the chunked fallback — the
store with chunk 1 missing yields the partial collection [1] reassembled
from chunk 0 alone, while the never-invoked loadNotesFromChunks helper
aborts with none on the same store. -/
theorem loadProtocol_skips_chunks_and_partialData :
    (∀ (α : Type) (pArr : List Nat → Option (List α)) (pMeta : List Nat → Option Nat)
        (st : Store), kvGet st notesKey = none → initNotesLoad pArr pMeta st = []) ∧
    initNotesLoad testPArr testPMeta c3Store = [1] ∧
    loadNotesFromChunks testPMeta c3Store = none := by
  refine ⟨?_, ?_, ?_⟩
  · intro α pArr pMeta st h
    simp [initNotesLoad, h]
  · decide
  · decide

/-- The Shutter record: the fields StorageContext.tsx reads and writes
(id, zoneId back-reference, name, remarks, timestamps), per the data model
of types imported from a file outside src. -/
structure Shutter where
  id : String
  zoneId : String
  name : String
  remarks : Option String
  createdAt : Nat
  updatedAt : Nat
  deriving DecidableEq

/-- The FunctionalZone record. -/
structure FunctionalZone where
  id : String
  buildingId : String
  name : String
  shutters : List Shutter
  createdAt : Nat
  deriving DecidableEq

/-- The Building record. -/
structure Building where
  id : String
  projectId : String
  name : String
  functionalZones : List FunctionalZone
  createdAt : Nat
  deriving DecidableEq

/-- The Project record. -/
structure Project where
  id : String
  name : String
  city : Option String
  buildings : List Building
  createdAt : Nat
  updatedAt : Nat
  deriving DecidableEq

/-- A searchShutters result row (L1375): the shutter with its owning zone,
building and project. -/
structure SearchResult where
  shutter : Shutter
  zone : FunctionalZone
  building : Building
  project : Project
  deriving DecidableEq

/-- A `Partial Shutter` update object as updateShutter receives it: present
fields overwrite, absent fields keep the current value. -/
structure ShutterPatch where
  name : Option String
  remarks : Option (Option String)
  deriving DecidableEq

/-- `{ ...shutter, ...updates, updatedAt: new Date() }` (L940-944). -/
def applyShutterPatch (s : Shutter) (u : ShutterPatch) (now : Nat) : Shutter :=
  { s with
    name := u.name.getD s.name
    remarks := u.remarks.getD s.remarks
    updatedAt := now }

/-- The findIndex-and-splice step of updateShutter on one zone's shutter list
(L938-960): the first shutter with the given id is replaced. -/
def updateInShutters (sid : String) (u : ShutterPatch) (now : Nat) :
    List Shutter → Option (List Shutter × Shutter)
  | [] => none
  | s :: rest =>
    if s.id = sid then
      some (applyShutterPatch s u now :: rest, applyShutterPatch s u now)
    else
      match updateInShutters sid u now rest with
      | some (rest', upd) => some (s :: rest', upd)
      | none => none

/-- The zone loop of updateShutter (L937-963). -/
def updateInZones (sid : String) (u : ShutterPatch) (now : Nat) :
    List FunctionalZone → Option (List FunctionalZone × Shutter)
  | [] => none
  | z :: rest =>
    match updateInShutters sid u now z.shutters with
    | some (ss', upd) => some ({ z with shutters := ss' } :: rest, upd)
    | none =>
      match updateInZones sid u now rest with
      | some (rest', upd) => some (z :: rest', upd)
      | none => none

/-- The building loop of updateShutter (L936-964). -/
def updateInBuildings (sid : String) (u : ShutterPatch) (now : Nat) :
    List Building → Option (List Building × Shutter)
  | [] => none
  | b :: rest =>
    match updateInZones sid u now b.functionalZones with
    | some (zs', upd) => some ({ b with functionalZones := zs' } :: rest, upd)
    | none =>
      match updateInBuildings sid u now rest with
      | some (rest', upd) => some (b :: rest', upd)
      | none => none

/-- updateShutter (StorageContext.tsx L932-978): locate the shutter in the
project tree, rebuild the tree with the patched shutter, bump the owning
project's updatedAt, and return the new tree and updated shutter; none when
the id is not found. -/
def updateShutter (sid : String) (u : ShutterPatch) (now : Nat) :
    List Project → Option (List Project × Shutter)
  | [] => none
  | p :: rest =>
    match updateInBuildings sid u now p.buildings with
    | some (bs', upd) => some ({ p with buildings := bs', updatedAt := now } :: rest, upd)
    | none =>
      match updateShutter sid u now rest with
      | some (rest', upd) => some (p :: rest', upd)
      | none => none

/-- enqueue (StorageContext.tsx L156-162): tasks chained on the promise tail
run strictly one at a time in submission order; the executed queue is a left
fold of the tasks over the persisted state. -/
def runQueue (tasks : List (α → α)) (st : α) : α :=
  tasks.foldl (fun s t => t s) st

/-- Two updateShutter calls submitted back-to-back: each call's synchronous
prefix reads projectsRef.current (L933) before either enqueued saveProjects
task has run — projectsRef is refreshed only by a useEffect after the task's
setProjects — so both read the same snapshot ps0; the precomputed snapshots
are then written through the queue in submission order. The list is the
successive AsyncStorage payloads. -/
def backToBackWrites (ps0 : List Project) (sid1 : String) (u1 : ShutterPatch) (now1 : Nat)
    (sid2 : String) (u2 : ShutterPatch) (now2 : Nat) : List (List Project) :=
  (match updateShutter sid1 u1 now1 ps0 with
   | some (t, _) => [t]
   | none => []) ++
  (match updateShutter sid2 u2 now2 ps0 with
   | some (t, _) => [t]
   | none => [])

/-- The PROJECTS key content after the queue has drained: each write task
overwrites the key with its precomputed snapshot. -/
def backToBackFinal (ps0 : List Project) (sid1 : String) (u1 : ShutterPatch) (now1 : Nat)
    (sid2 : String) (u2 : ShutterPatch) (now2 : Nat) : Option (List Project) :=
  runQueue
    ((backToBackWrites ps0 sid1 u1 now1 sid2 u2 now2).map fun t => fun _ => some t)
    none

/-- Observer: the shutter with the given id in a project tree. -/
def findShutterTree (ps : List Project) (sid : String) : Option Shutter :=
  ps.findSome? fun p => p.buildings.findSome? fun b =>
    b.functionalZones.findSome? fun z => z.shutters.find? fun s => s.id == sid

/-- A concrete tree: one project, one building, one zone, shutters A and B. -/
def shutterA : Shutter := ⟨"A", "z1", "alpha", none, 0, 0⟩

/-- Shutter B of the concrete tree. -/
def shutterB : Shutter := ⟨"B", "z1", "beta", none, 0, 0⟩

/-- The zone of the concrete tree. -/
def zone1 : FunctionalZone := ⟨"z1", "b1", "zone one", [shutterA, shutterB], 0⟩

/-- The building of the concrete tree. -/
def building1 : Building := ⟨"b1", "p1", "building one", [zone1], 0⟩

/-- The project of the concrete tree. -/
def project1 : Project := ⟨"p1", "project one", some "Paris", [building1], 0, 0⟩

/-- The concrete project tree. -/
def tree1 : List Project := [project1]

/-- A patch that renames a shutter. -/
def renamePatch (n : String) : ShutterPatch := ⟨some n, none⟩

/-- The whitespace class of the split regex in searchShutters (L1357),
restricted to the ASCII whitespace that the repository's data uses. -/
def isWsChar (c : Char) : Bool :=
  c = ' ' || c = '\t' || c = '\n' || c = '\r' || c = '\x0b' || c = '\x0c'

/-- Accumulating tokenizer: the maximal whitespace-free runs of a character
list, in order (`cur` holds the current run reversed). -/
def tokenizeAux (cur : List Char) : List Char → List (List Char)
  | [] => if cur.isEmpty then [] else [cur.reverse]
  | c :: rest =>
    if isWsChar c then
      if cur.isEmpty then tokenizeAux [] rest
      else cur.reverse :: tokenizeAux [] rest
    else tokenizeAux (c :: cur) rest

/-- `query.toLowerCase().trim().split(regex of whitespace runs).filter(w =>
w.length > 0)` (L1357): the maximal whitespace-free runs of the lowercased
query. -/
def tokenizeQuery (q : String) : List (List Char) :=
  tokenizeAux [] (q.data.map Char.toLower)

/-- The searchable text of one shutter row (L1363-1370): the six fields
joined with single spaces, lowercased. -/
def searchableText (p : Project) (b : Building) (z : FunctionalZone) (s : Shutter) :
    List Char :=
  (List.intercalate [' ']
    [s.name.data, z.name.data, b.name.data, p.name.data,
     (p.city.getD "").data, (s.remarks.getD "").data]).map Char.toLower

/-- `queryWords.every(word => searchableText.includes(word))` (L1372):
`includes` is contiguous-substring containment, List.IsInfix. -/
def matchesAllWords (q : String) (p : Project) (b : Building) (z : FunctionalZone)
    (s : Shutter) : Bool :=
  (tokenizeQuery q).all fun w => decide (w <:+: searchableText p b z s)

/-- searchShutters (StorageContext.tsx L1355-1383): the nested loops over
projects, buildings, zones and shutters, pushing a result row for every
shutter whose searchable text contains all query tokens. -/
def searchShutters (ps : List Project) (q : String) : List SearchResult :=
  ps.bind fun p => p.buildings.bind fun b => b.functionalZones.bind fun z =>
    (z.shutters.filter fun s => matchesAllWords q p b z s).map fun s => ⟨s, z, b, p⟩

/-- The Note record: the fields StorageContext.tsx reads and writes. -/
structure Note where
  id : String
  title : String
  content : String
  images : Option (List String)
  createdAt : Nat
  updatedAt : Nat
  deriving DecidableEq

/-- The argument of createNote: a Note without id and timestamps. -/
structure NoteData where
  title : String
  content : String
  images : Option (List String)
  deriving DecidableEq

/-- createNote (StorageContext.tsx L1172-1214) with the outcome of the
underlying AsyncStorage write abstracted as `saveOk`, and the generated id
and clock passed in: image persistence (identity on web, and a persist
failure falls back without aborting) never blocks the document write; the
new note is prepended and saveNotes runs — a save failure is rethrown, so
the promise rejects (`Except.error`). On success the created note and the
persisted collection are returned. -/
def createNoteRun (saveOk : Bool) (d : NoteData) (genId : String) (now : Nat)
    (notes : List Note) : Except Unit (Note × List Note) :=
  let newNote : Note := ⟨genId, d.title, d.content, d.images, now, now⟩
  if saveOk then Except.ok (newNote, newNote :: notes) else Except.error ()

/-- A `Partial Note` update object for updateNote. -/
structure NotePatch where
  title : Option String
  content : Option String
  images : Option (List String)
  deriving DecidableEq

/-- The findIndex-and-replace step of updateNote (L1224-1267). -/
def replaceNote (id : String) (patch : NotePatch) (now : Nat) :
    List Note → Option (List Note × Note)
  | [] => none
  | n :: rest =>
    if n.id = id then
      let n' : Note :=
        { n with
          title := patch.title.getD n.title
          content := patch.content.getD n.content
          images := patch.images
          updatedAt := now }
      some (n' :: rest, n')
    else
      match replaceNote id patch now rest with
      | some (rest', n') => some (n :: rest', n')
      | none => none

/-- updateNote (StorageContext.tsx L1216-1277) with the AsyncStorage write
outcome abstracted as `saveOk`: not-found returns ok none; a saveNotes
failure is rethrown (`Except.error`); on success the updated note is
returned. Image persistence (identity on web) is folded into the patch. -/
def updateNoteRun (saveOk : Bool) (id : String) (patch : NotePatch) (now : Nat)
    (notes : List Note) : Except Unit (Option Note × List Note) :=
  match replaceNote id patch now notes with
  | none => Except.ok (none, notes)
  | some (notes', n') =>
    if saveOk then Except.ok (some n', notes') else Except.error ()

/-- deleteNote (StorageContext.tsx L1279-1310) with the AsyncStorage write
outcome abstracted as `saveOk`. The whole body is wrapped in a try/catch
returning false, so the promise never rejects: not-found gives false, and a
saveNotes failure also gives false (the favorites write, which swallows its
own errors, has already happened). The triple is (returned flag, persisted
notes, persisted favorite-note ids). -/
def deleteNoteRun (saveOk : Bool) (id : String) (notes : List Note)
    (favNotes : List String) : Bool × List Note × List String :=
  match notes.find? (fun n => n.id == id) with
  | none => (false, notes, favNotes)
  | some _ =>
    let newNotes := notes.filter fun n => n.id != id
    let newFavs := favNotes.filter fun f => f != id
    if saveOk then (true, newNotes, newFavs) else (false, notes, newFavs)

/-- deleteNotes, the batch variant (StorageContext.tsx L1313-1352), with the
AsyncStorage write outcome abstracted as `saveOk`: images are removed
best-effort, every note whose id is in `ids` is dropped in one snapshot,
favorites are filtered, and the try/catch returns true exactly when the
notes write succeeded. -/
def deleteNotesRun (saveOk : Bool) (ids : List String) (notes : List Note)
    (favNotes : List String) : Bool × List Note × List String :=
  let newNotes := notes.filter fun n => !(ids.contains n.id)
  let newFavs := favNotes.filter fun f => !(ids.contains f)
  if saveOk then (true, newNotes, newFavs) else (false, notes, newFavs)

/-- deleteBuildings, the batch variant (StorageContext.tsx L688-709), with
the projects write outcome abstracted as `saveOk`: every building whose id is
in `ids` is filtered out of every project in one snapshot (no not-found
check, no updatedAt bump), favorites are filtered, and the try/catch returns
true exactly when the projects write succeeded. -/
def deleteBuildingsRun (saveOk : Bool) (ids : List String) (ps : List Project)
    (favB : List String) : Bool × List Project × List String :=
  let newProjects := ps.map fun p =>
    { p with buildings := p.buildings.filter fun b => !(ids.contains b.id) }
  let newFavs := favB.filter fun f => !(ids.contains f)
  if saveOk then (true, newProjects, newFavs) else (false, ps, newFavs)

/-- deleteZones, the batch variant (StorageContext.tsx L853-877), with the
projects write outcome abstracted as `saveOk`: every functional zone whose
id is in `ids` is filtered out of every building of every project in one
snapshot (no not-found check, no updatedAt bump), favorites are filtered,
and the try/catch returns true exactly when the projects write succeeded. -/
def deleteZonesRun (saveOk : Bool) (ids : List String) (ps : List Project)
    (favZ : List String) : Bool × List Project × List String :=
  let newProjects := ps.map fun p =>
    { p with
      buildings := p.buildings.map fun b =>
        { b with functionalZones := b.functionalZones.filter fun z => !(ids.contains z.id) } }
  let newFavs := favZ.filter fun f => !(ids.contains f)
  if saveOk then (true, newProjects, newFavs) else (false, ps, newFavs)

/-- deleteShuttersBatch (StorageContext.tsx L1054-1081), with the projects
write outcome abstracted as `saveOk`. -/
def deleteShuttersBatchRun (saveOk : Bool) (ids : List String) (ps : List Project)
    (favS : List String) : Bool × List Project × List String :=
  let newProjects := ps.map fun p =>
    { p with
      buildings := p.buildings.map fun b =>
        { b with
          functionalZones := b.functionalZones.map fun z =>
            { z with shutters := z.shutters.filter fun s => !(ids.contains s.id) } } }
  let newFavs := favS.filter fun f => !(ids.contains f)
  if saveOk then (true, newProjects, newFavs) else (false, ps, newFavs)

/-- deleteBuilding, the single-entity variant (StorageContext.tsx L646-685):
the `found` flag is returned, so a missing id reports false. -/
def deleteBuildingFound (buildingId : String) (ps : List Project) : Bool :=
  ps.any fun p => p.buildings.any fun b => b.id == buildingId

/-- The quick-calc status enum. -/
inductive CalcStatus where
  | compliant
  | acceptable
  | nonCompliant
  deriving DecidableEq

/-- A QuickCalcHistoryItem (StorageContext.tsx L16-24). -/
structure QuickCalcHistoryItem where
  id : String
  referenceFlow : Int
  measuredFlow : Int
  deviation : Int
  status : CalcStatus
  color : String
  timestamp : Nat
  deriving DecidableEq

/-- addQuickCalcHistory of the primary provider (StorageContext.tsx
L1130-1145): the new item is prepended to the stored history; no cap is
applied anywhere. -/
def addQuickCalcHistoryMain (newItem : QuickCalcHistoryItem)
    (history : List QuickCalcHistoryItem) : List QuickCalcHistoryItem :=
  newItem :: history

/-- addQuickCalcHistory of the alternate module-global provider
(StorageContext.tsx L2245-2256): unshift the new item, then slice(0, 5). -/
def addQuickCalcHistoryAlt (newItem : QuickCalcHistoryItem)
    (history : List QuickCalcHistoryItem) : List QuickCalcHistoryItem :=
  (newItem :: history).take 5

/-- A concrete history item. -/
def qItem (n : Nat) : QuickCalcHistoryItem :=
  ⟨toString n, 0, 0, 0, CalcStatus.compliant, "", n⟩

/-- A concrete stored history already holding five items. -/
def hist5 : List QuickCalcHistoryItem := [qItem 1, qItem 2, qItem 3, qItem 4, qItem 5]

/-- C4 (code bug): two updateShutter calls submitted back-to-back each
compute their snapshot from the same projectsRef state — the read-modify-
write happens outside the enqueued task, which serializes only the storage
writes — so although both precomputed writes run through the queue in
submission order, the last write wins: in the final persisted tree shutter B
carries its new name while shutter A still carries its old one (the first
update is lost), whereas applying the second update to the first update's
result, as the claim promises, renames both. -/
theorem backToBack_updates_lose_first_write :
    ((backToBackFinal tree1 "A" (renamePatch "alpha2") 1 "B" (renamePatch "beta2") 2).bind
        fun t => (findShutterTree t "A").map Shutter.name) = some "alpha" ∧
    ((backToBackFinal tree1 "A" (renamePatch "alpha2") 1 "B" (renamePatch "beta2") 2).bind
        fun t => (findShutterTree t "B").map Shutter.name) = some "beta2" ∧
    (backToBackWrites tree1 "A" (renamePatch "alpha2") 1 "B" (renamePatch "beta2") 2).length
      = 2 ∧
    ((updateShutter "A" (renamePatch "alpha2") 1 tree1).bind fun r =>
      (updateShutter "B" (renamePatch "beta2") 2 r.1).bind fun r2 =>
      (findShutterTree r2.1 "A").map Shutter.name) = some "alpha2" := by
  refine ⟨?_, ?_, ?_, ?_⟩ <;> decide

/-- C8: a result row is returned by searchShutters exactly when its shutter,
zone, building and project form a row of the tree and every token of the
lowercased whitespace-split query occurs as a contiguous substring of the
lowercased concatenation of shutter name, zone name, building name, project
name, project city and shutter remarks; a row missing any token is absent. -/
theorem searchShutters_mem_iff (ps : List Project) (q : String) (r : SearchResult) :
    r ∈ searchShutters ps q ↔
      (r.project ∈ ps ∧ r.building ∈ r.project.buildings ∧
        r.zone ∈ r.building.functionalZones ∧ r.shutter ∈ r.zone.shutters) ∧
      ∀ w ∈ tokenizeQuery q, w <:+: searchableText r.project r.building r.zone r.shutter := by
  constructor
  · intro hr
    simp only [searchShutters, List.mem_bind, List.mem_map, List.mem_filter] at hr
    obtain ⟨p, hp, b, hb, z, hz, s, ⟨hs, hmatch⟩, rfl⟩ := hr
    refine ⟨⟨hp, hb, hz, hs⟩, ?_⟩
    have hm : ∀ x ∈ tokenizeQuery q, x <:+: searchableText p b z s := by
      simpa [matchesAllWords] using hmatch
    exact hm
  · rintro ⟨⟨hp, hb, hz, hs⟩, hall⟩
    cases r with
    | mk s z b p =>
      simp only [searchShutters, List.mem_bind, List.mem_map, List.mem_filter]
      refine ⟨p, hp, b, hb, z, hz, s, ⟨hs, ?_⟩, rfl⟩
      simp only [matchesAllWords, List.all_eq_true]
      intro w hw
      exact decide_eq_true (hall w hw)

/-- C9: when the underlying persistence write fails on a direct user action,
the failure is surfaced: createNote rethrows (the promise rejects),
updateNote either rethrows or reports not-found with the collection
unchanged, and deleteNote returns false — no operation returns a success
value as if the edit had been saved. -/
theorem saveFailure_is_surfaced :
    (∀ (d : NoteData) (genId : String) (now : Nat) (notes : List Note),
        createNoteRun false d genId now notes = Except.error ()) ∧
    (∀ (id : String) (patch : NotePatch) (now : Nat) (notes : List Note),
        updateNoteRun false id patch now notes = Except.error () ∨
        updateNoteRun false id patch now notes = Except.ok (none, notes)) ∧
    (∀ (id : String) (notes : List Note) (favs : List String),
        (deleteNoteRun false id notes favs).1 = false) := by
  refine ⟨?_, ?_, ?_⟩
  · intro d genId now notes
    rfl
  · intro id patch now notes
    unfold updateNoteRun
    cases h : replaceNote id patch now notes with
    | none => right; rfl
    | some pr =>
      obtain ⟨notes', n'⟩ := pr
      left
      rfl
  · intro id notes favs
    unfold deleteNoteRun
    cases h : notes.find? (fun n => n.id == id) with
    | none => rfl
    | some n => rfl

theorem contains_eq_false_of_not_mem {l : List String} {a : String} (h : a ∉ l) :
    l.contains a = false := by
  by_cases hc : l.contains a = true
  · exact absurd (List.mem_of_elem_eq_true hc) h
  · simpa using hc

/-- C10: the four batch deletion operations — deleteBuildings, deleteZones,
deleteShuttersBatch, deleteNotes — return true whenever the persistence
write succeeds, even when none of the given ids matches any entity (the
snapshot is then simply the unchanged tree and is still written), unlike the
single-entity deletes, which report not-found through a false return. -/
theorem batchDelete_returns_true_on_success :
    (∀ (ids : List String) (ps : List Project) (favB : List String),
        (deleteBuildingsRun true ids ps favB).1 = true) ∧
    (∀ (ids : List String) (ps : List Project) (favZ : List String),
        (deleteZonesRun true ids ps favZ).1 = true) ∧
    (∀ (ids : List String) (ps : List Project) (favS : List String),
        (deleteShuttersBatchRun true ids ps favS).1 = true) ∧
    (∀ (ids : List String) (notes : List Note) (favN : List String),
        (deleteNotesRun true ids notes favN).1 = true) ∧
    (∀ (ids : List String) (ps : List Project) (favB : List String),
        (∀ p ∈ ps, ∀ b ∈ p.buildings, b.id ∉ ids) →
        (deleteBuildingsRun true ids ps favB).2.1 = ps) ∧
    (∀ (id : String) (notes : List Note) (favs : List String),
        (∀ n ∈ notes, n.id ≠ id) → (deleteNoteRun true id notes favs).1 = false) := by
  refine ⟨fun ids ps favB => rfl, fun ids ps favZ => rfl, fun ids ps favS => rfl,
    fun ids notes favN => rfl, ?_, ?_⟩
  · intro ids ps favB h
    show (ps.map fun p =>
      { p with buildings := p.buildings.filter fun b => !(ids.contains b.id) }) = ps
    have hmap : ∀ p ∈ ps,
        ({ p with buildings := p.buildings.filter fun b => !(ids.contains b.id) } :
          Project) = p := by
      intro p hp
      have hfil : (p.buildings.filter fun b => !(ids.contains b.id)) = p.buildings := by
        apply List.filter_eq_self.mpr
        intro b hb
        rw [contains_eq_false_of_not_mem (h p hp b hb)]
        rfl
      rw [hfil]
    calc (ps.map fun p =>
        { p with buildings := p.buildings.filter fun b => !(ids.contains b.id) })
        = ps.map id := List.map_congr_left hmap
      _ = ps := List.map_id ps
  · intro id notes favs h
    unfold deleteNoteRun
    have hfind : notes.find? (fun n => n.id == id) = none := by
      rw [List.find?_eq_none]
      intro n hn
      simpa using h n hn
    rw [hfind]

theorem batchDelete_witness :
    (deleteBuildingsRun true ["nope"] tree1 []).2.1 = tree1 :=
  (batchDelete_returns_true_on_success).2.2.2.2.1 ["nope"] tree1 []
    (by intro p hp b hb; fin_cases hp; fin_cases hb; decide)

/-- C7 (counterexample): the primary provider's addQuickCalcHistory applies
no cap — adding to a stored history that already holds five items yields six
stored items, violating the claimed cap of N = 5 that the alternate provider
enforces. -/
theorem quickCalcHistory_main_uncapped :
    ¬ ((addQuickCalcHistoryMain (qItem 6) hist5).length ≤ 5) := by decide

/-- C7 (amended): the alternate module-global provider's addQuickCalcHistory
is a capped list — at most five stored items, the new item first, positions
below five agreeing with the uncapped prepend (most recent kept in order)
and everything beyond evicted — while the primary provider's
addQuickCalcHistory always grows the stored history by one, unboundedly. -/
theorem quickCalcHistory_cap_behavior :
    (∀ (it : QuickCalcHistoryItem) (h : List QuickCalcHistoryItem),
        (addQuickCalcHistoryAlt it h).length ≤ 5) ∧
    (∀ (it : QuickCalcHistoryItem) (h : List QuickCalcHistoryItem),
        (addQuickCalcHistoryAlt it h).head? = some it) ∧
    (∀ (it : QuickCalcHistoryItem) (h : List QuickCalcHistoryItem) (i : Nat),
        (addQuickCalcHistoryAlt it h)[i]? = if i < 5 then (it :: h)[i]? else none) ∧
    (∀ (it : QuickCalcHistoryItem) (h : List QuickCalcHistoryItem),
        (addQuickCalcHistoryMain it h).length = h.length + 1) := by
  refine ⟨?_, ?_, ?_, ?_⟩
  · intro it h
    simpa [addQuickCalcHistoryAlt] using List.length_take_le 5 (it :: h)
  · intro it h
    simp [addQuickCalcHistoryAlt, List.take]
  · intro it h i
    by_cases hi : i < 5
    · rw [if_pos hi]
      exact List.getElem?_take_of_lt hi
    · have hlen : (addQuickCalcHistoryAlt it h).length ≤ i := by
        have := List.length_take_le 5 (it :: h)
        simp only [addQuickCalcHistoryAlt]
        omega
      simp [hi, List.getElem?_eq_none hlen]
  · intro it h
    simp [addQuickCalcHistoryMain]
